import Mathlib

/-!
Verification development for the eden-tanstack-query runtime core.

This file gives a shallow embedding of the runtime components of the
repository and proves properties about them:

* the JSON-like value universe (`JsVal`) used for caller-supplied input,
  path-parameter bindings and transport payloads;
* the input sanitizer `sanitizeInput` (packages/eden-tanstack-query/src/keys/queryKey.ts);
* the cache-key builder `getQueryKey` (same file);
* the infinite-query option assembler `edenInfiniteQueryOptions`
  (packages/eden-tanstack-query/src/options/infiniteQueryOptions.ts);
* the transport re-navigation function `navigateToEdenPath` and the
  fetch/mutate result handling of `createQueryProcedure` /
  `createMutationProcedure` (packages/eden-tanstack-query/src/proxy/createOptionsProxy.ts);
* the recursive navigation proxy `createEdenOptionsProxy` (same file),
  modelled as an arena/store of path and parameter arrays so that array
  copying and absence of in-place mutation are observable facts.
-/

namespace EdenTQ

/-- Value universe for JavaScript runtime values flowing through the key
builder and the option assemblers: `vundef` is `undefined`, `vnull` is
`null`, `vskip` is the TanStack Query `skipToken` sentinel (a unique
symbol), `varr` is an array and `vobj` a plain object given as ordered
own-key/value pairs. -/
inductive JsVal where
  | vundef
  | vnull
  | vbool (b : Bool)
  | vnum (n : Int)
  | vstr (s : String)
  | vskip
  | varr (elems : List JsVal)
  | vobj (fields : List (String × JsVal))
deriving Repr

/-- Test for the skipToken sentinel, mirroring the identity check
`input === skipToken`. -/
def isSkip : JsVal → Bool
  | .vskip => true
  | _ => false

/-- Test for `undefined`, mirroring `input === undefined`. -/
def isUndef : JsVal → Bool
  | .vundef => true
  | _ => false

/-- Test mirroring the source helper `isObject`: a plain object, so not
`null`, not an array, and not a primitive or function. -/
def isObject : JsVal → Bool
  | .vobj _ => true
  | _ => false

/-- Test for values the sanitizer recurses into (plain objects and
arrays); everything else is passed through unchanged. -/
def isObjOrArr : JsVal → Bool
  | .vobj _ => true
  | .varr _ => true
  | _ => false

/-- JavaScript truthiness of a value, as used by `if (result.error)` in
the fetch/mutate wrappers: `undefined`, `null`, `false`, `0` and the
empty string are falsy; objects, arrays and symbols are truthy. -/
def jsTruthy : JsVal → Bool
  | .vundef => false
  | .vnull => false
  | .vbool b => b
  | .vnum n => !(n == 0)
  | .vstr s => !(s == "")
  | .vskip => true
  | .varr _ => true
  | .vobj _ => true

/-- Dangerous keys removed by the sanitizer, from the source set
`DANGEROUS_KEYS = new Set(["__proto__", "constructor", "prototype"])`. -/
def isDangerousKey (k : String) : Bool :=
  k == "__proto__" || k == "constructor" || k == "prototype"

mutual

/-- Embedding of `sanitizeInput` from
packages/eden-tanstack-query/src/keys/queryKey.ts: plain objects drop
dangerous own keys and recurse into the remaining values, arrays map the
sanitizer over their elements, every other value is returned unchanged. -/
def sanitizeInput : JsVal → JsVal
  | .varr xs => .varr (sanitizeList xs)
  | .vobj fs => .vobj (sanitizeFields fs)
  | v => v

/-- Elementwise sanitization of an array, the `value.map(sanitizeInput)`
branch of `sanitizeInput`. -/
def sanitizeList : List JsVal → List JsVal
  | [] => []
  | x :: xs => sanitizeInput x :: sanitizeList xs

/-- Keywise sanitization of an object, the `for (const key of
Object.keys(value))` loop of `sanitizeInput`: dangerous keys are skipped,
kept keys get sanitized values. -/
def sanitizeFields : List (String × JsVal) → List (String × JsVal)
  | [] => []
  | (k, v) :: fs =>
    if isDangerousKey k then sanitizeFields fs
    else (k, sanitizeInput v) :: sanitizeFields fs

end

mutual

/-- Predicate (as a Bool) holding when no own key named `__proto__`,
`constructor` or `prototype` occurs at any nesting depth, recursing into
plain objects and arrays. -/
def noDanger : JsVal → Bool
  | .varr xs => noDangerList xs
  | .vobj fs => noDangerFields fs
  | _ => true

/-- List version of `noDanger` for array elements. -/
def noDangerList : List JsVal → Bool
  | [] => true
  | x :: xs => noDanger x && noDangerList xs

/-- Field version of `noDanger` for object entries: the key is not
dangerous and the value is recursively clean. -/
def noDangerFields : List (String × JsVal) → Bool
  | [] => true
  | (k, v) :: fs => !(isDangerousKey k) && noDanger v && noDangerFields fs

end

/-- Query-kind tag from packages/eden-tanstack-query/src/keys/types.ts:
`QueryType = "query" | "infinite" | "any"`. -/
inductive QueryType where
  | query
  | infinite
  | any
deriving DecidableEq, Repr

/-- Meta element of a query key: a record with optional `input` and
optional `type`, mirroring the `meta` object assembled by `getQueryKey`.
`none` in a field means the field is absent from the record. -/
structure KeyMeta where
  input : Option JsVal
  type : Option QueryType
deriving Repr

/-- Query key shape `[path, meta?]`: the first component is always the
path, the second is the optional meta record (`none` when the key is the
one-element tuple `[path]`). -/
def EdenQueryKey := List String × Option KeyMeta

/-- Presence test for an own key in an object field list, mirroring the
JavaScript `"cursor" in inputObj` check. -/
def hasKey (fs : List (String × JsVal)) (k : String) : Bool :=
  fs.any (fun kv => kv.1 == k)

/-- Removal of the `cursor` and `direction` keys from an object field
list, mirroring the rest-destructuring
`const { cursor: _, direction: __, ...rest } = inputObj`. -/
def stripFields (fs : List (String × JsVal)) : List (String × JsVal) :=
  fs.filter (fun kv => !(kv.1 == "cursor") && !(kv.1 == "direction"))

/-- Cursor/direction stripping on a value, applied by `getQueryKey` only
when the sanitized input is a plain object. -/
def stripCursorDirection : JsVal → JsVal
  | .vobj fs => .vobj (stripFields fs)
  | v => v

/-- Combined test for the infinite-query stripping branch of
`getQueryKey`: the sanitized input is a plain object containing a
`cursor` or a `direction` own key. -/
def hasCursorOrDirection : JsVal → Bool
  | .vobj fs => hasKey fs "cursor" || hasKey fs "direction"
  | _ => false

/-- Meta assembly tail of `getQueryKey`: `meta.input` is set when the
sanitized input is not `undefined`, `meta.type` is set when the type tag
is present and not the wildcard `any`; a path-only key is returned when
the meta record stayed empty. -/
def assembleMeta (path : List String) (si : JsVal) (ty : Option QueryType) :
    EdenQueryKey :=
  let mInput : Option JsVal := if isUndef si then none else some si
  let mType : Option QueryType :=
    match ty with
    | none => none
    | some .any => none
    | some t => some t
  match mInput, mType with
  | none, none => (path, none)
  | _, _ => (path, some ⟨mInput, mType⟩)

/-- Embedding of `getQueryKey` from
packages/eden-tanstack-query/src/keys/queryKey.ts. Branch order follows
the source: skipToken gives a path-only key; `undefined` input with an
absent or wildcard type gives a path-only key; otherwise the input is
sanitized, the infinite-query branch strips `cursor`/`direction` from a
plain-object input, and the meta record is assembled. -/
def getQueryKey (path : List String) (input : JsVal) (ty : Option QueryType) :
    EdenQueryKey :=
  if isSkip input then (path, none)
  else if isUndef input && (ty == none || ty == some QueryType.any) then (path, none)
  else
    let si := sanitizeInput input
    if ty == some QueryType.infinite && hasCursorOrDirection si then
      (path, some ⟨some (stripCursorDirection si), some QueryType.infinite⟩)
    else
      assembleMeta path si ty

/-- Result object of a transport call, the `{data, error}` shape resolved
by an Eden treaty method call. -/
structure TransportResult where
  data : JsVal
  error : JsVal
deriving Repr

/-- Options object passed one hop into a treaty query method call by the
fetch callback of `createQueryProcedure`: `{ query: actualInput, fetch: {
signal } }`. The signal slot is `none` when the callback received
`undefined`. -/
structure EdenCallOpts (σ : Type) where
  query : JsVal
  signal : Option σ

/-- Embedding of the fetch callback tail of `createQueryProcedure`
(createOptionsProxy.ts): the treaty method is called with the original
input and the received signal, then a truthy `error` field is thrown
as-is and otherwise the `data` field is returned. The already-navigated
treaty method is abstracted as `methodFn`. -/
def queryProcedureFetch (σ : Type) (methodFn : EdenCallOpts σ → TransportResult)
    (input : JsVal) (signal : Option σ) : Except JsVal JsVal :=
  let result := methodFn { query := input, signal := signal }
  if jsTruthy result.error then Except.error result.error else Except.ok result.data

/-- Embedding of the mutate callback tail of `createMutationProcedure`
(createOptionsProxy.ts): the treaty method is called with the mutation
variables as body, then a truthy `error` field is thrown as-is and
otherwise the `data` field is returned. -/
def mutationProcedureMutate (methodFn : JsVal → TransportResult)
    (input : JsVal) : Except JsVal JsVal :=
  let result := methodFn input
  if jsTruthy result.error then Except.error result.error else Except.ok result.data

/-- Per-call eden options bag, mirroring `eden?: { abortOnUnmount?:
boolean }` on the option assemblers. -/
structure EdenOpts where
  abortOnUnmount : Option Bool
deriving Repr

/-- Test for the `opts?.eden?.abortOnUnmount` condition guarding signal
forwarding. -/
def abortFlag : Option EdenOpts → Bool
  | some e => e.abortOnUnmount == some true
  | none => false

/-- Fetch context handed by TanStack Query to an infinite-query
`queryFn`: the current page param and the context abort signal. -/
structure InfQueryContext (σ : Type) where
  pageParam : JsVal
  signal : σ

/-- Fetch context handed by TanStack Query to a plain-query `queryFn`. -/
structure QueryCtx (σ : Type) where
  signal : σ

/-- Fetch slot of a descriptor: either the skipToken sentinel itself (set
when the input was skipToken) or an actual query function. -/
inductive QueryFnSlot (γ ρ : Type) where
  | skip
  | fn (f : γ → ρ)

/-- Application of a fetch slot to a context; the skipToken slot is not a
function and yields nothing. -/
def applySlot (γ ρ : Type) : QueryFnSlot γ ρ → γ → Option ρ
  | .skip, _ => none
  | .fn f, ctx => some (f ctx)

/-- Replacement or insertion of a key in an object field list, mirroring
the object spread `{ ...actualInput, cursor: context.pageParam }`: an
existing `cursor` key keeps its position with the new value, a missing
one is appended. -/
def setKeyValue (fs : List (String × JsVal)) (k : String) (v : JsVal) :
    List (String × JsVal) :=
  if fs.any (fun kv => kv.1 == k) then
    fs.map (fun kv => if kv.1 == k then (kv.1, v) else kv)
  else fs ++ [(k, v)]

/-- Merge of the current page param into the input under a `cursor`
field, the `fullInput` computation of the infinite-query `queryFn`.
Spreading a non-object contributes no own keys, so only the cursor field
remains in that case (array index keys are not modelled; no claim
depends on spreading an array input here). -/
def mergeCursor (input cursorVal : JsVal) : JsVal :=
  match input with
  | .vobj fs => .vobj (setKeyValue fs "cursor" cursorVal)
  | _ => .vobj [("cursor", cursorVal)]

/-- Descriptor produced by the infinite-query assembler: cache key, fetch
slot, initial page param and the dotted-path metadata `eden.path`. -/
structure InfiniteDescriptor (σ ρ : Type) where
  queryKey : EdenQueryKey
  queryFn : QueryFnSlot (InfQueryContext σ) ρ
  initialPageParam : JsVal
  edenPath : String

/-- Embedding of `edenInfiniteQueryOptions` from
packages/eden-tanstack-query/src/options/infiniteQueryOptions.ts: a
skipToken input is replaced by `undefined` for key building with type
`infinite`; the `queryFn` merges the context page param into the input
under `cursor` and forwards the context signal only when
`eden.abortOnUnmount` is set, and the fetch slot is the skipToken
sentinel itself when the input was skipToken; `eden.path` is the dotted
path. -/
def edenInfiniteQueryOptions (σ ρ : Type) (path : List String) (input : JsVal)
    (fetchFn : JsVal → Option σ → ρ) (initialPageParam : JsVal)
    (edenOpt : Option EdenOpts) : InfiniteDescriptor σ ρ :=
  let inputIsSkipToken := isSkip input
  let queryKey := getQueryKey path (if inputIsSkipToken then .vundef else input)
    (some QueryType.infinite)
  let queryFn : InfQueryContext σ → ρ := fun context =>
    let fullInput := mergeCursor input context.pageParam
    let signal : Option σ := if abortFlag edenOpt then some context.signal else none
    fetchFn fullInput signal
  { queryKey := queryKey
    queryFn := if inputIsSkipToken then .skip else .fn queryFn
    initialPageParam := initialPageParam
    edenPath := String.intercalate "." path }

/-- Descriptor produced by the plain query assembler. -/
structure QueryDescriptor (σ ρ : Type) where
  queryKey : EdenQueryKey
  queryFn : QueryFnSlot (QueryCtx σ) ρ
  edenPath : String

/-- Modelled from the spec: the plain query option assembler
`edenQueryOptions` (src/options/queryOptions.ts is not present under
src/; only its tests and callers are). Per spec section 4.3 the key is
built with type `query` (with skipToken handled as for the infinite
assembler, matching the test expectation `[path, {type: "query"}]`), the
descriptor fetch function receives the original input and an optional
abort signal forwarded only when `eden.abortOnUnmount` is true, and the
fetch slot is the skipToken sentinel itself when the input was
skipToken. -/
def edenQueryOptionsModel (σ ρ : Type) (path : List String) (input : JsVal)
    (fetchFn : JsVal → Option σ → ρ) (edenOpt : Option EdenOpts) :
    QueryDescriptor σ ρ :=
  let inputIsSkipToken := isSkip input
  let queryKey := getQueryKey path (if inputIsSkipToken then .vundef else input)
    (some QueryType.query)
  let queryFn : QueryCtx σ → ρ := fun context =>
    let signal : Option σ := if abortFlag edenOpt then some context.signal else none
    fetchFn input signal
  { queryKey := queryKey
    queryFn := if inputIsSkipToken then .skip else .fn queryFn
    edenPath := String.intercalate "." path }

/-- HTTP methods that map to queries, `QUERY_METHODS` in
createOptionsProxy.ts. -/
def QUERY_METHODS : List String := ["get", "options", "head"]

/-- HTTP methods that map to mutations, `MUTATION_METHODS` in
createOptionsProxy.ts. -/
def MUTATION_METHODS : List String := ["post", "put", "patch", "delete"]

/-- Embedding of `isQueryMethod`. -/
def isQueryMethod (p : String) : Bool := QUERY_METHODS.contains p

/-- Embedding of `isMutationMethod`. -/
def isMutationMethod (p : String) : Bool := MUTATION_METHODS.contains p

/-- Model of the Eden treaty transport client walked by
`navigateToEdenPath`. A node carries the URL segments treaty has
accumulated for it (treaty keeps this internally; it is inert data for
navigation), an optional call behaviour (`some` when the JavaScript value
is a function, as treaty proxy nodes are) and its named properties.
Property lookup returning `none` models a segment whose value is
`undefined`; `cnull` models `null` and `cundef` a value that is itself
`undefined`. -/
inductive Client where
  | cnull
  | cundef
  | cnode (url : List String) (call : Option (JsVal → Client))
      (props : String → Option Client)

/-- Loose `edenPath == null` check of the navigation loop, true for both
`null` and `undefined`. -/
def isNullish : Client → Bool
  | .cnull => true
  | .cundef => true
  | _ => false

/-- Property access `edenPath[segment]` on the current node. -/
def getProp : Client → String → Option Client
  | .cnode _ _ props, s => props s
  | _, _ => none

/-- URL segments of a node, used to observe where parameter bindings were
applied during navigation. -/
def clientUrl : Client → Option (List String)
  | .cnode url _ _ => some url
  | _ => none

/-- Navigation errors thrown by `navigateToEdenPath`, one constructor per
`throw new Error(...)` site. -/
inductive NavError where
  | nullAccess (segment : String)
  | segmentMissing (segment : String)
deriving DecidableEq, Repr

/-- Message rendering of a navigation error; the source templates are
`Invalid path: cannot access (segment) on null/undefined` and
`Invalid path: segment (segment) does not exist on client`, with the
segment name quoted in the original strings. -/
def NavError.message : NavError → String
  | .nullAccess seg => "Invalid path: cannot access " ++ seg ++ " on null/undefined"
  | .segmentMissing seg => "Invalid path: segment " ++ seg ++ " does not exist on client"

/-- Loop body of `navigateToEdenPath`, with `pi` the running
`paramIndex`. For each segment: a nullish current value throws the
null-access error; a missing (`undefined`) property throws the
segment-missing error; then, if a parameter binding remains, the value
just navigated to is a function and the segment is not an HTTP method
name, the function is called with the next binding and `paramIndex` is
advanced. -/
def navAux : Client → List String → List JsVal → Nat → Except NavError Client
  | eden, [], _, _ => Except.ok eden
  | eden, seg :: rest, params, pi =>
    if isNullish eden then Except.error (NavError.nullAccess seg)
    else
      match getProp eden seg with
      | none => Except.error (NavError.segmentMissing seg)
      | some next =>
        match next with
        | .cnode url (some f) props =>
          if pi < params.length then
            if isQueryMethod seg || isMutationMethod seg then
              navAux (.cnode url (some f) props) rest params pi
            else
              navAux (f (params.getD pi JsVal.vundef)) rest params (pi + 1)
          else navAux (.cnode url (some f) props) rest params pi
        | other => navAux other rest params pi

/-- Embedding of `navigateToEdenPath` from createOptionsProxy.ts:
navigation starts at the client with `paramIndex = 0`. -/
def navigateToEdenPath (client : Client) (pathSegments : List String)
    (pathParams : List JsVal) : Except NavError Client :=
  navAux client pathSegments pathParams 0

/-- URL observation of a navigation outcome. -/
def navResultUrl (r : Except NavError Client) : Option (List String) :=
  match r with
  | .ok c => clientUrl c
  | .error _ => none

/-- Modelled from the spec: position-tracked parameter application
(spec section 4.4 and CHANGELOG 0.1.8 `PositionedPathParam`; no
position-tracked navigation code is present under src/). Each binding is
recorded with the index of the segment at which the proxy was invoked,
and is applied exactly when navigation passes that segment. -/
def navPosAux : Client → List String → List (Nat × JsVal) → Nat →
    Except NavError Client
  | eden, [], _, _ => Except.ok eden
  | eden, seg :: rest, bound, idx =>
    if isNullish eden then Except.error (NavError.nullAccess seg)
    else
      match getProp eden seg with
      | none => Except.error (NavError.segmentMissing seg)
      | some next =>
        match (bound.find? (fun b => b.1 == idx)).map (fun b => b.2), next with
        | some p, .cnode _ (some f) _ => navPosAux (f p) rest bound (idx + 1)
        | _, _ => navPosAux next rest bound (idx + 1)

/-- Modelled from the spec: entry point of position-tracked navigation. -/
def navigatePositional (client : Client) (pathSegments : List String)
    (bound : List (Nat × JsVal)) : Except NavError Client :=
  navPosAux client pathSegments bound 0

/-- Value a treaty node inserts into the URL when invoked with a
parameter-binding record: the bound value of the first field. -/
def firstParamValue : JsVal → String
  | .vobj ((_, .vstr s) :: _) => s
  | _ => "param"

/-- Depth-bounded model of an Eden treaty client: every node is callable
(treaty proxies are functions at every level) and resolves every
property, extending its accumulated URL with the property name or, on
invocation, with the bound parameter value. -/
def treatyNode : Nat → List String → Client
  | 0, url => .cnode url none (fun _ => none)
  | fuel + 1, url =>
    .cnode url
      (some (fun p => treatyNode fuel (url ++ [firstParamValue p])))
      (fun s => some (treatyNode fuel (url ++ [s])))

/-- Concrete treaty client used to evaluate the CHANGELOG 0.1.8 scenario
`eden.v1.users.address({ userId }).get`. -/
def treatyDemo : Client := treatyNode 5 []

/-- Property key used on the navigation proxy: a string property or a
symbol (any symbol, collapsed to one constructor since the handler only
tests `typeof prop === "symbol"`). -/
inductive PropKey where
  | sym
  | str (s : String)
deriving DecidableEq, Repr

/-- Reference to one proxy instance of `createEdenOptionsProxy`: indices
of the `paths` array and the `pathParams` array it closed over, in the
arena of all arrays ever allocated. -/
structure ProxyRef where
  pid : Nat
  aid : Nat
deriving DecidableEq, Repr

/-- Arena of the arrays allocated by the navigation proxy. Modelling the
JavaScript arrays as arena slots keeps array identity observable, so
that copying (`[...paths, prop]`, `[...pathParams]`) versus in-place
mutation is a provable distinction. -/
structure Store where
  pathArrs : List (List String)
  paramArrs : List (List JsVal)
deriving Repr

/-- Contents of the `paths` array a proxy reference points to. -/
def Store.pathsOf (σ : Store) (r : ProxyRef) : List String :=
  σ.pathArrs.getD r.pid []

/-- Contents of the `pathParams` array a proxy reference points to. -/
def Store.paramsOf (σ : Store) (r : ProxyRef) : List JsVal :=
  σ.paramArrs.getD r.aid []

/-- Validity of a reference: both indices point into the arena. -/
def Store.valid (σ : Store) (r : ProxyRef) : Prop :=
  r.pid < σ.pathArrs.length ∧ r.aid < σ.paramArrs.length

instance (σ : Store) (r : ProxyRef) : Decidable (σ.valid r) := by
  unfold Store.valid
  infer_instance

/-- Allocation of a fresh pair of arrays with the given contents,
mirroring the array spreads performed on every navigation step. -/
def Store.allocFrom (σ : Store) (ps : List String) (qs : List JsVal) :
    Store × ProxyRef :=
  ({ pathArrs := σ.pathArrs ++ [ps], paramArrs := σ.paramArrs ++ [qs] },
   ⟨σ.pathArrs.length, σ.paramArrs.length⟩)

/-- Result of a property access on the navigation proxy: `undefined` for
symbols and `then`, a terminal query or mutation procedure for HTTP
method names, and a deeper proxy otherwise. Each non-undefined result
carries the reference to the freshly allocated arrays it closed over. -/
inductive GetResult where
  | undef
  | child (r : ProxyRef)
  | queryProc (r : ProxyRef)
  | mutationProc (r : ProxyRef)
deriving DecidableEq, Repr

/-- Embedding of the `get` trap of `createEdenOptionsProxy`: symbols and
`then` yield `undefined` with no allocation; otherwise fresh copies
`[...paths, prop]` and `[...pathParams]` are allocated and handed to a
query procedure, a mutation procedure, or a deeper proxy according to
the property name. -/
def proxyGet (σ : Store) (r : ProxyRef) (k : PropKey) : Store × GetResult :=
  match k with
  | .sym => (σ, .undef)
  | .str s =>
    if s == "then" then (σ, .undef)
    else
      let alloc := σ.allocFrom (σ.pathsOf r ++ [s]) (σ.paramsOf r)
      if isQueryMethod s then (alloc.1, .queryProc alloc.2)
      else if isMutationMethod s then (alloc.1, .mutationProc alloc.2)
      else (alloc.1, .child alloc.2)

/-- Embedding of the `apply` trap of `createEdenOptionsProxy`: invoking
the proxy as a function allocates fresh copies `[...paths]` and
`[...pathParams, params]` and returns a deeper proxy over them. -/
def proxyApply (σ : Store) (r : ProxyRef) (params : JsVal) : Store × ProxyRef :=
  σ.allocFrom (σ.pathsOf r) (σ.paramsOf r ++ [params])

/-- Observable contents (paths and bindings) of the proxy or procedure a
`get` step produced, independent of arena identity. -/
def getResultContents : Store × GetResult → Option (List String × List JsVal)
  | (σ, .child r) => some (σ.pathsOf r, σ.paramsOf r)
  | (σ, .queryProc r) => some (σ.pathsOf r, σ.paramsOf r)
  | (σ, .mutationProc r) => some (σ.pathsOf r, σ.paramsOf r)
  | (_, .undef) => none

/-! ## Helper lemmas -/

theorem sanitizeList_eq_map (xs : List JsVal) :
    sanitizeList xs = xs.map sanitizeInput := by
  induction xs with
  | nil => rfl
  | cons x xs ih => simp [sanitizeList, ih]

theorem sanitizeFields_eq_filter_map (fs : List (String × JsVal)) :
    sanitizeFields fs = (fs.filter (fun kv => !(isDangerousKey kv.1))).map
      (fun kv => (kv.1, sanitizeInput kv.2)) := by
  induction fs with
  | nil => rfl
  | cons kv fs ih =>
    obtain ⟨k, v⟩ := kv
    cases h : isDangerousKey k
    · simp [sanitizeFields, h, ih, List.filter_cons]
    · simp [sanitizeFields, h, ih, List.filter_cons]

mutual

theorem noDanger_sanitizeInput : ∀ (v : JsVal), noDanger (sanitizeInput v) = true
  | .vundef => rfl
  | .vnull => rfl
  | .vbool _ => rfl
  | .vnum _ => rfl
  | .vstr _ => rfl
  | .vskip => rfl
  | .varr xs => by
    simpa [sanitizeInput, noDanger] using noDangerList_sanitizeList xs
  | .vobj fs => by
    simpa [sanitizeInput, noDanger] using noDangerFields_sanitizeFields fs

theorem noDangerList_sanitizeList : ∀ (xs : List JsVal),
    noDangerList (sanitizeList xs) = true
  | [] => rfl
  | x :: xs => by
    simp [sanitizeList, noDangerList, noDanger_sanitizeInput x,
      noDangerList_sanitizeList xs]

theorem noDangerFields_sanitizeFields : ∀ (fs : List (String × JsVal)),
    noDangerFields (sanitizeFields fs) = true
  | [] => rfl
  | (k, v) :: fs => by
    cases h : isDangerousKey k
    · simp [sanitizeFields, h, noDangerFields, noDanger_sanitizeInput v,
        noDangerFields_sanitizeFields fs]
    · simp [sanitizeFields, h, noDangerFields_sanitizeFields fs]

end

theorem hasKey_sanitizeFields (fs : List (String × JsVal)) (k : String)
    (hk : isDangerousKey k = false) :
    hasKey (sanitizeFields fs) k = hasKey fs k := by
  induction fs with
  | nil => rfl
  | cons kv fs ih =>
    obtain ⟨k1, v⟩ := kv
    cases h : isDangerousKey k1
    · simp [sanitizeFields, h, hasKey, List.any_cons] at ih ⊢
      rw [ih]
    · have hne : (k1 == k) = false := by
        cases heq : k1 == k
        · rfl
        · exfalso
          have hkk : k1 = k := by simpa using heq
          rw [hkk] at h
          rw [h] at hk
          cases hk
      simp [sanitizeFields, h, hasKey, List.any_cons, hne] at ih ⊢
      exact ih

theorem hasKey_stripFields (fs : List (String × JsVal)) (k : String)
    (h : k = "cursor" ∨ k = "direction") :
    hasKey (stripFields fs) k = false := by
  induction fs with
  | nil => rfl
  | cons kv fs ih =>
    obtain ⟨k1, v⟩ := kv
    simp only [stripFields, List.filter_cons] at ih ⊢
    cases hkeep : (!(k1 == "cursor") && !(k1 == "direction"))
    · simpa [hkeep] using ih
    · have hc : (k1 == "cursor") = false := by
        cases hx : k1 == "cursor"
        · rfl
        · rw [hx] at hkeep; simp at hkeep
      have hd : (k1 == "direction") = false := by
        cases hx : k1 == "direction"
        · rfl
        · rw [hx] at hkeep; simp at hkeep
      have hne : (k1 == k) = false := by
        rcases h with rfl | rfl
        · exact hc
        · exact hd
      simp [hkeep, hasKey, List.any_cons, hne]
      simpa [hasKey] using ih

theorem dangerous_keep (k : String) (h : isDangerousKey k = true) :
    (!(k == "cursor") && !(k == "direction")) = true := by
  unfold isDangerousKey at h
  have hk : (k = "__proto__" ∨ k = "constructor") ∨ k = "prototype" := by
    simpa [Bool.or_eq_true] using h
  rcases hk with (rfl | rfl) | rfl <;> decide

theorem stripFields_cons (k : String) (w : JsVal) (rest : List (String × JsVal)) :
    stripFields ((k, w) :: rest) =
    if (!(k == "cursor") && !(k == "direction")) then (k, w) :: stripFields rest
    else stripFields rest := by
  simp [stripFields, List.filter_cons]

theorem sanitizeFields_cons (k : String) (w : JsVal) (rest : List (String × JsVal)) :
    sanitizeFields ((k, w) :: rest) =
    if isDangerousKey k then sanitizeFields rest
    else (k, sanitizeInput w) :: sanitizeFields rest := rfl

theorem stripFields_sanitizeFields_comm (fs : List (String × JsVal)) :
    stripFields (sanitizeFields fs) = sanitizeFields (stripFields fs) := by
  induction fs with
  | nil => rfl
  | cons kv fs ih =>
    obtain ⟨k, v⟩ := kv
    cases hdg : isDangerousKey k
    · cases hkeep : (!(k == "cursor") && !(k == "direction"))
      · rw [sanitizeFields_cons, if_neg (by simp [hdg])]
        rw [stripFields_cons, if_neg (by simp [hkeep])]
        rw [stripFields_cons, if_neg (by simp [hkeep])]
        exact ih
      · rw [sanitizeFields_cons, if_neg (by simp [hdg])]
        rw [stripFields_cons, if_pos hkeep]
        rw [stripFields_cons, if_pos hkeep]
        rw [sanitizeFields_cons, if_neg (by simp [hdg])]
        rw [ih]
    · rw [sanitizeFields_cons, if_pos hdg]
      rw [stripFields_cons, if_pos (dangerous_keep k hdg)]
      rw [sanitizeFields_cons, if_pos hdg]
      exact ih

theorem stripFields_eq_self (fs : List (String × JsVal))
    (h1 : hasKey fs "cursor" = false) (h2 : hasKey fs "direction" = false) :
    stripFields fs = fs := by
  induction fs with
  | nil => rfl
  | cons kv fs ih =>
    obtain ⟨k, v⟩ := kv
    simp only [hasKey, List.any_cons, Bool.or_eq_false_iff] at h1 h2
    rw [stripFields_cons, if_pos (by simp [h1.1, h2.1])]
    rw [ih (by simpa [hasKey] using h1.2) (by simpa [hasKey] using h2.2)]

/-! ## Claim theorems -/

/-- Claim C7: for every path, input and type, `getQueryKey` returns a
tuple whose first element is exactly the path, with an optional meta
record as second element; with `undefined` input and an absent or
wildcard type the result is exactly the path-only key, and the empty
path is legal and yields the key containing the empty path. -/
theorem claim_C7_key_shape :
    (∀ (p : List String) (i : JsVal) (t : Option QueryType),
      (getQueryKey p i t).1 = p ∧
      ((getQueryKey p i t).2 = none ∨ ∃ m, (getQueryKey p i t).2 = some m)) ∧
    (∀ p : List String,
      getQueryKey p JsVal.vundef none = (p, none) ∧
      getQueryKey p JsVal.vundef (some QueryType.any) = (p, none)) ∧
    getQueryKey ([] : List String) JsVal.vundef none = (([] : List String), none) := by
  refine ⟨fun p i t => ⟨?_, ?_⟩, fun p => ⟨rfl, rfl⟩, rfl⟩
  · simp only [getQueryKey, assembleMeta]
    repeat' split
    all_goals rfl
  · cases h : (getQueryKey p i t).2 with
    | none => exact Or.inl rfl
    | some m => exact Or.inr ⟨m, rfl⟩

/-- Claim C5: the sanitizer removes every own key named `__proto__`,
`constructor` or `prototype` at every nesting depth, recursing into plain
objects (keeping the remaining keys with sanitized values) and arrays
(sanitizing elementwise), returns non-object non-array values unchanged
including `null`, and maps the prototype-pollution example object with an
own `__proto__` key to the object containing only the safe key. -/
theorem claim_C5_sanitizer :
    (∀ v : JsVal, noDanger (sanitizeInput v) = true) ∧
    (∀ xs : List JsVal, sanitizeInput (.varr xs) = .varr (xs.map sanitizeInput)) ∧
    (∀ fs : List (String × JsVal),
      sanitizeInput (.vobj fs) = .vobj ((fs.filter
        (fun kv => !(isDangerousKey kv.1))).map
        (fun kv => (kv.1, sanitizeInput kv.2)))) ∧
    (∀ v : JsVal, isObjOrArr v = false → sanitizeInput v = v) ∧
    sanitizeInput JsVal.vnull = JsVal.vnull ∧
    sanitizeInput (.vobj [("__proto__", .vobj [("polluted", .vbool true)]),
      ("safe", .vnum 1)]) = .vobj [("safe", .vnum 1)] := by
  refine ⟨noDanger_sanitizeInput, ?_, ?_, ?_, rfl, rfl⟩
  · intro xs
    simp [sanitizeInput, sanitizeList_eq_map]
  · intro fs
    simp [sanitizeInput, sanitizeFields_eq_filter_map]
  · intro v h
    cases v with
    | varr xs => simp [isObjOrArr] at h
    | vobj fs => simp [isObjOrArr] at h
    | vundef => rfl
    | vnull => rfl
    | vbool b => rfl
    | vnum n => rfl
    | vstr s => rfl
    | vskip => rfl

/-- Witness for claim C5: the fourth conjunct applied at a concrete
non-object value. -/
theorem claim_C5_witness :
    isObjOrArr (JsVal.vstr "abc") = false ∧
    sanitizeInput (JsVal.vstr "abc") = JsVal.vstr "abc" :=
  ⟨rfl, claim_C5_sanitizer.2.2.2.1 (JsVal.vstr "abc") rfl⟩

theorem getQueryKey_vobj_infinite_unfold (p : List String)
    (fs : List (String × JsVal)) :
    getQueryKey p (.vobj fs) (some QueryType.infinite) =
    if (hasKey (sanitizeFields fs) "cursor" || hasKey (sanitizeFields fs) "direction") then
      (p, some ⟨some (.vobj (stripFields (sanitizeFields fs))), some QueryType.infinite⟩)
    else
      (p, some ⟨some (.vobj (sanitizeFields fs)), some QueryType.infinite⟩) := rfl

/-- Claim C4: for every path and plain-object input, building an
infinite-query key on the input and on the input with `cursor` and
`direction` removed gives the same key; in particular the documented
`{limit, cursor, direction}` example collapses to the `{limit}` key. -/
theorem claim_C4_cursor_stripping :
    (∀ (p : List String) (fs : List (String × JsVal)),
      getQueryKey p (.vobj fs) (some QueryType.infinite) =
      getQueryKey p (.vobj (stripFields fs)) (some QueryType.infinite)) ∧
    getQueryKey ["posts", "get"]
      (.vobj [("limit", .vnum 10), ("cursor", .vstr "x"),
        ("direction", .vstr "forward")]) (some QueryType.infinite) =
    getQueryKey ["posts", "get"] (.vobj [("limit", .vnum 10)])
      (some QueryType.infinite) := by
  constructor
  · intro p fs
    have hcur : hasKey (sanitizeFields fs) "cursor" = hasKey fs "cursor" :=
      hasKey_sanitizeFields fs "cursor" (by decide)
    have hdir : hasKey (sanitizeFields fs) "direction" = hasKey fs "direction" :=
      hasKey_sanitizeFields fs "direction" (by decide)
    cases hc : (hasKey fs "cursor" || hasKey fs "direction")
    · have h1 : hasKey fs "cursor" = false := by
        cases hx : hasKey fs "cursor"
        · rfl
        · rw [hx] at hc; simp at hc
      have h2 : hasKey fs "direction" = false := by
        cases hx : hasKey fs "direction"
        · rfl
        · rw [hx] at hc; simp at hc
      rw [stripFields_eq_self fs h1 h2]
    · have hstripc : hasKey (sanitizeFields (stripFields fs)) "cursor" = false := by
        rw [hasKey_sanitizeFields _ _ (by decide)]
        exact hasKey_stripFields fs "cursor" (Or.inl rfl)
      have hstripd : hasKey (sanitizeFields (stripFields fs)) "direction" = false := by
        rw [hasKey_sanitizeFields _ _ (by decide)]
        exact hasKey_stripFields fs "direction" (Or.inr rfl)
      rw [getQueryKey_vobj_infinite_unfold, getQueryKey_vobj_infinite_unfold,
        hcur, hdir, hc, hstripc, hstripd]
      simp [stripFields_sanitizeFields_comm]
  · rfl

/-- Claim C3 counterexample: a transport result whose `error` field is the
empty string is non-null, yet the fetch and mutate wrappers do not throw
it — the truthiness check `if (result.error)` lets it through and the
`data` field is returned — refuting the claim that every non-null error
value is rethrown. -/
theorem claim_C3_counterexample :
    (JsVal.vstr "" = JsVal.vnull → False) ∧
    (JsVal.vstr "" = JsVal.vundef → False) ∧
    queryProcedureFetch Unit (fun _ => ⟨JsVal.vstr "payload", JsVal.vstr ""⟩)
      (JsVal.vobj []) none = Except.ok (JsVal.vstr "payload") ∧
    (queryProcedureFetch Unit (fun _ => ⟨JsVal.vstr "payload", JsVal.vstr ""⟩)
      (JsVal.vobj []) none = Except.error (JsVal.vstr "") → False) ∧
    mutationProcedureMutate (fun _ => ⟨JsVal.vstr "payload", JsVal.vstr ""⟩)
      (JsVal.vobj []) = Except.ok (JsVal.vstr "payload") := by
  refine ⟨?_, ?_, rfl, ?_, rfl⟩
  · intro h
    cases h
  · intro h
    cases h
  · intro h
    have hok : queryProcedureFetch Unit
        (fun _ => ⟨JsVal.vstr "payload", JsVal.vstr ""⟩) (JsVal.vobj []) none =
        Except.ok (JsVal.vstr "payload") := rfl
    rw [hok] at h
    cases h

/-- Claim C3 amended: for every transport result, the fetch and mutate
wrappers throw exactly the error value when it is truthy and return the
data value when it is falsy (null, undefined, false, 0 and the empty
string); the thrown value is the error field itself, unwrapped. -/
theorem claim_C3_truthy_rethrow :
    ∀ (σ : Type) (methodFn : EdenCallOpts σ → TransportResult)
      (mutFn : JsVal → TransportResult) (input : JsVal) (signal : Option σ),
      (jsTruthy (methodFn ⟨input, signal⟩).error = true →
        queryProcedureFetch σ methodFn input signal =
          Except.error (methodFn ⟨input, signal⟩).error) ∧
      (jsTruthy (methodFn ⟨input, signal⟩).error = false →
        queryProcedureFetch σ methodFn input signal =
          Except.ok (methodFn ⟨input, signal⟩).data) ∧
      (jsTruthy (mutFn input).error = true →
        mutationProcedureMutate mutFn input =
          Except.error (mutFn input).error) ∧
      (jsTruthy (mutFn input).error = false →
        mutationProcedureMutate mutFn input = Except.ok (mutFn input).data) := by
  intro σ f g input signal
  refine ⟨fun h => ?_, fun h => ?_, fun h => ?_, fun h => ?_⟩ <;>
    simp [queryProcedureFetch, mutationProcedureMutate, h]

/-- Witness for claim C3: a truthy object error is rethrown as-is by the
fetch wrapper. -/
theorem claim_C3_witness :
    jsTruthy (JsVal.vobj [("status", JsVal.vnum 500)]) = true ∧
    queryProcedureFetch Unit
      (fun _ => ⟨JsVal.vnull, JsVal.vobj [("status", JsVal.vnum 500)]⟩)
      (JsVal.vobj []) none =
      Except.error (JsVal.vobj [("status", JsVal.vnum 500)]) :=
  ⟨rfl,
    (claim_C3_truthy_rethrow Unit
      (fun _ => ⟨JsVal.vnull, JsVal.vobj [("status", JsVal.vnum 500)]⟩)
      (fun _ => ⟨JsVal.vnull, JsVal.vnull⟩) (JsVal.vobj []) none).1 rfl⟩

/-- Claim C2 counterexample: the infinite-query descriptor built with the
skipToken input does not have a path-only cache key — the key carries a
meta element holding the infinite type tag (matching the repository's own
test expectation `[path, {type: "infinite"}]`) — refuting the path-only
part of the claim. -/
theorem claim_C2_counterexample :
    (edenInfiniteQueryOptions Unit Unit ["api", "posts", "get"] JsVal.vskip
      (fun _ _ => ()) JsVal.vnull none).queryKey =
      (["api", "posts", "get"], some ⟨none, some QueryType.infinite⟩) ∧
    ((edenInfiniteQueryOptions Unit Unit ["api", "posts", "get"] JsVal.vskip
      (fun _ _ => ()) JsVal.vnull none).queryKey =
      (["api", "posts", "get"], (none : Option KeyMeta)) → False) := by
  refine ⟨rfl, fun h => ?_⟩
  have hk : (edenInfiniteQueryOptions Unit Unit ["api", "posts", "get"]
      JsVal.vskip (fun _ _ => ()) JsVal.vnull none).queryKey =
      (["api", "posts", "get"], some ⟨none, some QueryType.infinite⟩) := rfl
  rw [hk] at h
  have h2 : (some (⟨none, some QueryType.infinite⟩ : KeyMeta) : Option KeyMeta)
      = none := congrArg Prod.snd h
  cases h2

/-- Claim C2 amended: for every path, fetch callback, initial page param
and option bag, the infinite-query descriptor built with the skip
sentinel has a cache key whose meta element contains no input and only
the infinite type tag, and its fetch slot is the skip sentinel itself,
not a function. -/
theorem claim_C2_skip_descriptor :
    ∀ (σ ρ : Type) (path : List String) (fetchFn : JsVal → Option σ → ρ)
      (init : JsVal) (edenOpt : Option EdenOpts),
      (edenInfiniteQueryOptions σ ρ path JsVal.vskip fetchFn init
        edenOpt).queryKey = (path, some ⟨none, some QueryType.infinite⟩) ∧
      (edenInfiniteQueryOptions σ ρ path JsVal.vskip fetchFn init
        edenOpt).queryFn = QueryFnSlot.skip ∧
      ∀ f, (edenInfiniteQueryOptions σ ρ path JsVal.vskip fetchFn init
        edenOpt).queryFn = QueryFnSlot.fn f → False := by
  intro σ ρ path fetchFn init edenOpt
  refine ⟨rfl, rfl, fun f h => ?_⟩
  have hs : (edenInfiniteQueryOptions σ ρ path JsVal.vskip fetchFn init
      edenOpt).queryFn = QueryFnSlot.skip := rfl
  rw [hs] at h
  cases h

/-- Claim C1 (code evaluated at the failing input): on a treaty-shaped
client whose nodes are all callable, re-navigating the CHANGELOG 0.1.8
scenario — path `v1.users.address` with the single binding made at the
`address` segment — applies the binding at the first callable segment
`v1`, yielding URL `v1/1/users/address`, whereas position-tracked
application (the behaviour the claim and the changelog describe) yields
`v1/users/address/1`; the two disagree. -/
theorem claim_C1_sequential_application_eval :
    navResultUrl (navigateToEdenPath treatyDemo ["v1", "users", "address"]
      [JsVal.vobj [("userId", JsVal.vstr "1")]]) =
      some ["v1", "1", "users", "address"] ∧
    navResultUrl (navigatePositional treatyDemo ["v1", "users", "address"]
      [(2, JsVal.vobj [("userId", JsVal.vstr "1")])]) =
      some ["v1", "users", "address", "1"] ∧
    (["v1", "1", "users", "address"] : List String) ≠
      ["v1", "users", "address", "1"] :=
  ⟨rfl, rfl, by decide⟩

theorem navAux_error_mem :
    ∀ (segs : List String) (c : Client) (params : List JsVal) (pi : Nat)
      (e : NavError), navAux c segs params pi = Except.error e →
      ∃ s, s ∈ segs ∧ (e = NavError.nullAccess s ∨ e = NavError.segmentMissing s) := by
  intro segs
  induction segs with
  | nil =>
    intro c params pi e h
    exact absurd h (by simp [navAux])
  | cons s rest ih =>
    intro c params pi e h
    unfold navAux at h
    split at h
    · injection h with h
      exact ⟨s, List.mem_cons_self s rest, Or.inl h.symm⟩
    · split at h
      · injection h with h
        exact ⟨s, List.mem_cons_self s rest, Or.inr h.symm⟩
      · split at h
        · split at h
          · split at h
            · obtain ⟨t, ht, he⟩ := ih _ _ _ _ h
              exact ⟨t, List.mem_cons_of_mem s ht, he⟩
            · obtain ⟨t, ht, he⟩ := ih _ _ _ _ h
              exact ⟨t, List.mem_cons_of_mem s ht, he⟩
          · obtain ⟨t, ht, he⟩ := ih _ _ _ _ h
            exact ⟨t, List.mem_cons_of_mem s ht, he⟩
        · obtain ⟨t, ht, he⟩ := ih _ _ _ _ h
          exact ⟨t, List.mem_cons_of_mem s ht, he⟩

theorem navAux_nullish (c : Client) (s : String) (rest : List String)
    (params : List JsVal) (pi : Nat) (h : isNullish c = true) :
    navAux c (s :: rest) params pi = Except.error (NavError.nullAccess s) := by
  unfold navAux
  rw [if_pos h]

theorem navAux_missing (url : List String) (call : Option (JsVal → Client))
    (props : String → Option Client) (s : String) (rest : List String)
    (params : List JsVal) (pi : Nat) (h : props s = none) :
    navAux (.cnode url call props) (s :: rest) params pi =
      Except.error (NavError.segmentMissing s) := by
  unfold navAux
  rw [if_neg (by simp [isNullish])]
  simp [getProp, h]

/-- Claim C6: proxy construction and navigation never throw — every
property access on the proxy yields a defined result (undefined, a
deeper proxy, or a terminal procedure) and every invocation yields a
deeper proxy — while re-navigation inside a fetch/mutate callback can
only fail with one of the two descriptive errors, raised respectively
when a segment is accessed on a nullish value and when a named segment
is missing from the transport client; the two error forms are distinct
and carry distinct messages. -/
theorem claim_C6_navigation_failures :
    (∀ (σ : Store) (r : ProxyRef) (k : PropKey),
      (proxyGet σ r k).2 = GetResult.undef ∨
      (∃ c, (proxyGet σ r k).2 = GetResult.child c) ∨
      (∃ c, (proxyGet σ r k).2 = GetResult.queryProc c) ∨
      (∃ c, (proxyGet σ r k).2 = GetResult.mutationProc c)) ∧
    (∀ (σ : Store) (r : ProxyRef) (a : JsVal),
      ∃ σ2 r2, proxyApply σ r a = (σ2, r2)) ∧
    (∀ (c : Client) (segs : List String) (params : List JsVal) (e : NavError),
      navigateToEdenPath c segs params = Except.error e →
      ∃ s, s ∈ segs ∧
        (e = NavError.nullAccess s ∨ e = NavError.segmentMissing s)) ∧
    (∀ (c : Client) (s : String) (rest : List String) (params : List JsVal),
      isNullish c = true →
      navigateToEdenPath c (s :: rest) params =
        Except.error (NavError.nullAccess s)) ∧
    (∀ (url : List String) (call : Option (JsVal → Client))
      (props : String → Option Client) (s : String) (rest : List String)
      (params : List JsVal), props s = none →
      navigateToEdenPath (.cnode url call props) (s :: rest) params =
        Except.error (NavError.segmentMissing s)) ∧
    (∀ s t, NavError.nullAccess s ≠ NavError.segmentMissing t) ∧
    NavError.message (NavError.nullAccess "users") ≠
      NavError.message (NavError.segmentMissing "users") := by
  refine ⟨?_, ?_, ?_, ?_, ?_, ?_, ?_⟩
  · intro σ r k
    cases k with
    | sym => exact Or.inl rfl
    | str s =>
      by_cases ht : (s == "then") = true
      · refine Or.inl ?_
        simp [proxyGet, ht]
      · by_cases hq : isQueryMethod s = true
        · exact Or.inr (Or.inr (Or.inl
            ⟨(σ.allocFrom (σ.pathsOf r ++ [s]) (σ.paramsOf r)).2,
              by simp [proxyGet, ht, hq]⟩))
        · by_cases hm : isMutationMethod s = true
          · exact Or.inr (Or.inr (Or.inr
              ⟨(σ.allocFrom (σ.pathsOf r ++ [s]) (σ.paramsOf r)).2,
                by simp [proxyGet, ht, hq, hm]⟩))
          · exact Or.inr (Or.inl
              ⟨(σ.allocFrom (σ.pathsOf r ++ [s]) (σ.paramsOf r)).2,
                by simp [proxyGet, ht, hq, hm]⟩)
  · intro σ r a
    exact ⟨_, _, rfl⟩
  · intro c segs params e h
    exact navAux_error_mem segs c params 0 e h
  · intro c s rest params h
    exact navAux_nullish c s rest params 0 h
  · intro url call props s rest params h
    exact navAux_missing url call props s rest params 0 h
  · intro s t h
    cases h
  · decide

/-- Witness for claim C6: the error-classification and error-condition
conjuncts applied at a concrete nullish client and a concrete client
missing a segment. -/
theorem claim_C6_witness :
    navigateToEdenPath Client.cnull ["a"] [] =
      Except.error (NavError.nullAccess "a") ∧
    navigateToEdenPath (Client.cnode [] none (fun _ => none)) ["b"] [] =
      Except.error (NavError.segmentMissing "b") ∧
    (∃ s, s ∈ ["a"] ∧
      (NavError.nullAccess "a" = NavError.nullAccess s ∨
        NavError.nullAccess "a" = NavError.segmentMissing s)) :=
  ⟨claim_C6_navigation_failures.2.2.2.1 Client.cnull "a" [] [] rfl,
   claim_C6_navigation_failures.2.2.2.2.1 [] none (fun _ => none) "b" [] [] rfl,
   claim_C6_navigation_failures.2.2.1 Client.cnull ["a"] []
     (NavError.nullAccess "a")
     (claim_C6_navigation_failures.2.2.2.1 Client.cnull "a" [] [] rfl)⟩

/-- Claim C8: the abort signal from the fetch context reaches the
underlying transport call if and only if the per-call option
`eden.abortOnUnmount` is true; when the option is absent or false the
fetch callback receives no signal. Stated for the infinite-query
assembler from the source, for the spec-modelled plain query assembler,
and for the one-hop forwarding of the received signal into the treaty
call options by the query procedure fetch callback. -/
theorem claim_C8_abort_gating :
    (∀ (σ : Type) (path : List String) (input : JsVal) (init : JsVal)
      (edenOpt : Option EdenOpts) (ctx : InfQueryContext σ),
      isSkip input = false →
      (abortFlag edenOpt = true →
        applySlot (InfQueryContext σ) (JsVal × Option σ)
          (edenInfiniteQueryOptions σ (JsVal × Option σ) path input
            (fun i sg => (i, sg)) init edenOpt).queryFn ctx =
          some (mergeCursor input ctx.pageParam, some ctx.signal)) ∧
      (abortFlag edenOpt = false →
        applySlot (InfQueryContext σ) (JsVal × Option σ)
          (edenInfiniteQueryOptions σ (JsVal × Option σ) path input
            (fun i sg => (i, sg)) init edenOpt).queryFn ctx =
          some (mergeCursor input ctx.pageParam, none))) ∧
    (∀ (σ : Type) (path : List String) (input : JsVal)
      (edenOpt : Option EdenOpts) (ctx : QueryCtx σ),
      isSkip input = false →
      (abortFlag edenOpt = true →
        applySlot (QueryCtx σ) (JsVal × Option σ)
          (edenQueryOptionsModel σ (JsVal × Option σ) path input
            (fun i sg => (i, sg)) edenOpt).queryFn ctx =
          some (input, some ctx.signal)) ∧
      (abortFlag edenOpt = false →
        applySlot (QueryCtx σ) (JsVal × Option σ)
          (edenQueryOptionsModel σ (JsVal × Option σ) path input
            (fun i sg => (i, sg)) edenOpt).queryFn ctx =
          some (input, none))) ∧
    (∀ (σ : Type) (methodFn : EdenCallOpts σ → TransportResult) (input : JsVal)
      (signal : Option σ),
      queryProcedureFetch σ methodFn input signal =
        (if jsTruthy (methodFn ⟨input, signal⟩).error then
          Except.error (methodFn ⟨input, signal⟩).error
        else Except.ok (methodFn ⟨input, signal⟩).data)) := by
  refine ⟨?_, ?_, ?_⟩
  · intro σ path input init edenOpt ctx hsk
    constructor
    · intro h
      simp [edenInfiniteQueryOptions, hsk, applySlot, h]
    · intro h
      simp [edenInfiniteQueryOptions, hsk, applySlot, h]
  · intro σ path input edenOpt ctx hsk
    constructor
    · intro h
      simp [edenQueryOptionsModel, hsk, applySlot, h]
    · intro h
      simp [edenQueryOptionsModel, hsk, applySlot, h]
  · intro σ methodFn input signal
    rfl

/-- Witness for claim C8: with `abortOnUnmount` set the infinite-query
fetch receives the context signal, and with the option absent it
receives none. -/
theorem claim_C8_witness :
    applySlot (InfQueryContext Unit) (JsVal × Option Unit)
      (edenInfiniteQueryOptions Unit (JsVal × Option Unit) ["posts", "get"]
        (JsVal.vobj []) (fun i sg => (i, sg)) JsVal.vnull
        (some ⟨some true⟩)).queryFn ⟨JsVal.vnull, ()⟩ =
      some (mergeCursor (JsVal.vobj []) JsVal.vnull, some ()) ∧
    applySlot (InfQueryContext Unit) (JsVal × Option Unit)
      (edenInfiniteQueryOptions Unit (JsVal × Option Unit) ["posts", "get"]
        (JsVal.vobj []) (fun i sg => (i, sg)) JsVal.vnull none).queryFn
      ⟨JsVal.vnull, ()⟩ =
      some (mergeCursor (JsVal.vobj []) JsVal.vnull, none) :=
  ⟨(claim_C8_abort_gating.1 Unit ["posts", "get"] (JsVal.vobj []) JsVal.vnull
      (some ⟨some true⟩) ⟨JsVal.vnull, ()⟩ rfl).1 rfl,
   (claim_C8_abort_gating.1 Unit ["posts", "get"] (JsVal.vobj []) JsVal.vnull
      none ⟨JsVal.vnull, ()⟩ rfl).2 rfl⟩

theorem getD_append_left {α : Type} (l : List α) (x : α) (i : Nat) (d : α)
    (h : i < l.length) : (l ++ [x]).getD i d = l.getD i d := by
  simp [List.getD, List.getElem?_append_left h]

theorem getD_concat_length {α : Type} (l : List α) (x : α) (d : α) :
    (l ++ [x]).getD l.length d = x := by
  simp [List.getD, List.getElem?_concat_length]

theorem allocFrom_frame (σ : Store) (ps : List String) (qs : List JsVal)
    (q : ProxyRef) (h : σ.valid q) :
    (σ.allocFrom ps qs).1.pathsOf q = σ.pathsOf q ∧
    (σ.allocFrom ps qs).1.paramsOf q = σ.paramsOf q := by
  obtain ⟨h1, h2⟩ := h
  exact ⟨getD_append_left _ _ _ _ h1, getD_append_left _ _ _ _ h2⟩

theorem allocFrom_fresh (σ : Store) (ps : List String) (qs : List JsVal) :
    (σ.allocFrom ps qs).1.pathsOf (σ.allocFrom ps qs).2 = ps ∧
    (σ.allocFrom ps qs).1.paramsOf (σ.allocFrom ps qs).2 = qs ∧
    ¬ σ.valid (σ.allocFrom ps qs).2 := by
  refine ⟨?_, ?_, ?_⟩
  · exact getD_concat_length σ.pathArrs ps []
  · exact getD_concat_length σ.paramArrs qs []
  · intro hv
    exact Nat.lt_irrefl σ.pathArrs.length hv.1

theorem proxyGet_store_frame (σ : Store) (r : ProxyRef) (k : PropKey)
    (q : ProxyRef) (h : σ.valid q) :
    (proxyGet σ r k).1.pathsOf q = σ.pathsOf q ∧
    (proxyGet σ r k).1.paramsOf q = σ.paramsOf q := by
  cases k with
  | sym => exact ⟨rfl, rfl⟩
  | str s =>
    by_cases ht : (s == "then") = true
    · constructor
      · simp [proxyGet, ht]
      · simp [proxyGet, ht]
    · by_cases hq : isQueryMethod s = true
      · constructor
        · simpa [proxyGet, ht, hq] using (allocFrom_frame σ _ _ q h).1
        · simpa [proxyGet, ht, hq] using (allocFrom_frame σ _ _ q h).2
      · by_cases hm : isMutationMethod s = true
        · constructor
          · simpa [proxyGet, ht, hq, hm] using (allocFrom_frame σ _ _ q h).1
          · simpa [proxyGet, ht, hq, hm] using (allocFrom_frame σ _ _ q h).2
        · constructor
          · simpa [proxyGet, ht, hq, hm] using (allocFrom_frame σ _ _ q h).1
          · simpa [proxyGet, ht, hq, hm] using (allocFrom_frame σ _ _ q h).2

theorem proxyGet_contents_congr (σ1 σ2 : Store) (r : ProxyRef) (k : PropKey)
    (hp : σ1.pathsOf r = σ2.pathsOf r) (hq : σ1.paramsOf r = σ2.paramsOf r) :
    getResultContents (proxyGet σ1 r k) = getResultContents (proxyGet σ2 r k) := by
  cases k with
  | sym => rfl
  | str s =>
    by_cases ht : (s == "then") = true
    · have e1 : proxyGet σ1 r (.str s) = (σ1, .undef) := by simp [proxyGet, ht]
      have e2 : proxyGet σ2 r (.str s) = (σ2, .undef) := by simp [proxyGet, ht]
      rw [e1, e2]
      rfl
    · by_cases hqm : isQueryMethod s = true
      · simp only [proxyGet, ht, hqm]
        simp [getResultContents, (allocFrom_fresh σ1 _ _).1,
          (allocFrom_fresh σ1 _ _).2.1, (allocFrom_fresh σ2 _ _).1,
          (allocFrom_fresh σ2 _ _).2.1, hp, hq]
      · by_cases hmm : isMutationMethod s = true
        · simp only [proxyGet, ht, hqm, hmm]
          simp [getResultContents, (allocFrom_fresh σ1 _ _).1,
            (allocFrom_fresh σ1 _ _).2.1, (allocFrom_fresh σ2 _ _).1,
            (allocFrom_fresh σ2 _ _).2.1, hp, hq]
        · simp only [proxyGet, ht, hqm, hmm]
          simp [getResultContents, (allocFrom_fresh σ1 _ _).1,
            (allocFrom_fresh σ1 _ _).2.1, (allocFrom_fresh σ2 _ _).1,
            (allocFrom_fresh σ2 _ _).2.1, hp, hq]

/-- Claim C9: every navigation step of the proxy allocates fresh copies
of its segment and parameter-binding arrays and never mutates the arrays
of any existing proxy: a get or apply step leaves the contents of every
valid reference unchanged, the allocated arrays are new (not a valid
reference of the prior store) and hold the copied, extended contents,
and two navigations branching from the same proxy yield the same
observable contents whether or not the other branch was taken first. -/
theorem claim_C9_immutable_navigation :
    (∀ (σ : Store) (r : ProxyRef) (k : PropKey) (q : ProxyRef), σ.valid q →
      (proxyGet σ r k).1.pathsOf q = σ.pathsOf q ∧
      (proxyGet σ r k).1.paramsOf q = σ.paramsOf q) ∧
    (∀ (σ : Store) (r : ProxyRef) (a : JsVal) (q : ProxyRef), σ.valid q →
      (proxyApply σ r a).1.pathsOf q = σ.pathsOf q ∧
      (proxyApply σ r a).1.paramsOf q = σ.paramsOf q) ∧
    (∀ (σ : Store) (ps : List String) (qs : List JsVal),
      (σ.allocFrom ps qs).1.pathsOf (σ.allocFrom ps qs).2 = ps ∧
      (σ.allocFrom ps qs).1.paramsOf (σ.allocFrom ps qs).2 = qs ∧
      ¬ σ.valid (σ.allocFrom ps qs).2) ∧
    (∀ (σ : Store) (r : ProxyRef) (a : JsVal),
      (proxyApply σ r a).1.pathsOf (proxyApply σ r a).2 = σ.pathsOf r ∧
      (proxyApply σ r a).1.paramsOf (proxyApply σ r a).2 =
        σ.paramsOf r ++ [a] ∧
      ¬ σ.valid (proxyApply σ r a).2) ∧
    (∀ (σ : Store) (r : ProxyRef) (s : String), (s == "then") = false →
      getResultContents (proxyGet σ r (PropKey.str s)) =
        some (σ.pathsOf r ++ [s], σ.paramsOf r)) ∧
    (∀ (σ : Store) (r : ProxyRef) (k1 k2 : PropKey), σ.valid r →
      getResultContents (proxyGet (proxyGet σ r k1).1 r k2) =
        getResultContents (proxyGet σ r k2)) := by
  refine ⟨proxyGet_store_frame, ?_, allocFrom_fresh, ?_, ?_, ?_⟩
  · intro σ r a q h
    exact allocFrom_frame σ _ _ q h
  · intro σ r a
    exact allocFrom_fresh σ _ _
  · intro σ r s ht
    by_cases hq : isQueryMethod s = true
    · simp only [proxyGet, ht, hq]
      simp [getResultContents, (allocFrom_fresh σ _ _).1,
        (allocFrom_fresh σ _ _).2.1]
    · by_cases hm : isMutationMethod s = true
      · simp only [proxyGet, ht, hq, hm]
        simp [getResultContents, (allocFrom_fresh σ _ _).1,
          (allocFrom_fresh σ _ _).2.1]
      · simp only [proxyGet, ht, hq, hm]
        simp [getResultContents, (allocFrom_fresh σ _ _).1,
          (allocFrom_fresh σ _ _).2.1]
  · intro σ r k1 k2 h
    exact proxyGet_contents_congr _ _ r k2
      (proxyGet_store_frame σ r k1 r h).1 (proxyGet_store_frame σ r k1 r h).2

/-- Witness for claim C9: the frame and noninterference conjuncts applied
at a concrete store holding one proxy. -/
theorem claim_C9_witness :
    (proxyGet ⟨[["api"]], [[]]⟩ ⟨0, 0⟩ (PropKey.str "users")).1.pathsOf
      ⟨0, 0⟩ = Store.pathsOf ⟨[["api"]], [[]]⟩ ⟨0, 0⟩ ∧
    getResultContents (proxyGet
      (proxyGet ⟨[["api"]], [[]]⟩ ⟨0, 0⟩ (PropKey.str "users")).1 ⟨0, 0⟩
      (PropKey.str "posts")) =
    getResultContents (proxyGet ⟨[["api"]], [[]]⟩ ⟨0, 0⟩ (PropKey.str "posts")) :=
  ⟨(claim_C9_immutable_navigation.1 ⟨[["api"]], [[]]⟩ ⟨0, 0⟩
      (PropKey.str "users") ⟨0, 0⟩ (by constructor <;> decide)).1,
   claim_C9_immutable_navigation.2.2.2.2.2 ⟨[["api"]], [[]]⟩ ⟨0, 0⟩
     (PropKey.str "users") (PropKey.str "posts") (by constructor <;> decide)⟩

/-- Claim C10: property access on the proxy with any symbol key or with
the string key `then` returns undefined and allocates nothing, so the
proxy is not a thenable and symbol introspection creates no phantom path
segment. -/
theorem claim_C10_thenable_and_symbols :
    ∀ (σ : Store) (r : ProxyRef) (k : PropKey),
      (k = PropKey.sym ∨ k = PropKey.str "then") →
      proxyGet σ r k = (σ, GetResult.undef) := by
  intro σ r k h
  rcases h with rfl | rfl
  · rfl
  · rfl

/-- Witness for claim C10: both the symbol case and the `then` case at a
concrete store. -/
theorem claim_C10_witness :
    proxyGet ⟨[], []⟩ ⟨0, 0⟩ PropKey.sym = (⟨[], []⟩, GetResult.undef) ∧
    proxyGet ⟨[], []⟩ ⟨0, 0⟩ (PropKey.str "then") = (⟨[], []⟩, GetResult.undef) :=
  ⟨claim_C10_thenable_and_symbols ⟨[], []⟩ ⟨0, 0⟩ PropKey.sym (Or.inl rfl),
   claim_C10_thenable_and_symbols ⟨[], []⟩ ⟨0, 0⟩ (PropKey.str "then")
     (Or.inr rfl)⟩

end EdenTQ
